import Mathlib

/-!
Verification of the dataset-unpacking script (`unpack-dataset.py`).

The script is shallowly embedded: file contents are `List Char` / `List Nat`,
filesystem paths are lists of path components (`List (List Char)`, an absolute
path with the leading root implicit), and the filesystem side effects performed
by extraction are recorded as an explicit effect trace.  Library calls
(`hashlib`, `lzma`, `tarfile` parsing) are modelled at their interface:
hashing accumulates the streamed bytes and applies an arbitrary digest
function, and an archive's parsed form is given up front as a `tar` member
list, a raw decompressed byte stream, or an unreadable blob.
-/

namespace Unpack

/-- ASCII whitespace as recognized by the script's text handling
(Python `str.strip` / `str.split`); exotic Unicode whitespace is outside
the scope of the model. -/
def pyWhitespace (c : Char) : Bool :=
  c = ' ' || c = '\t' || c = '\n' || c = '\r' || c = '\x0b' || c = '\x0c'

/-- Line-boundary characters for `str.splitlines` (ASCII subset). -/
def lineBreak (c : Char) : Bool :=
  c = '\n' || c = '\r' || c = '\x0b' || c = '\x0c'

/-- Python `str.strip()` on a character list. -/
def stripChars (l : List Char) : List Char :=
  ((l.dropWhile pyWhitespace).reverse.dropWhile pyWhitespace).reverse

/-- The sixteen lowercase hexadecimal digits (the string literal
`"0123456789abcdef"` at line 41 of the script). -/
def hexDigits : List Char := "0123456789abcdef".data

/-- `c.lower() in "0123456789abcdef"` (line 41). -/
def isHexChar (c : Char) : Bool := hexDigits.contains c.toLower

/-- The first whitespace-delimited token of the first line of a checksum
file, as computed by lines 38-40 of `read_expected_sha256`
(`text.splitlines()[0].strip().split()[0]`). -/
def firstToken (raw : List Char) : List Char :=
  let text := stripChars raw
  let firstLine := stripChars (text.takeWhile (fun c => ! lineBreak c))
  (firstLine.dropWhile pyWhitespace).takeWhile (fun c => ! pyWhitespace c)

/-- `read_expected_sha256` (lines 26-44).  The argument is `none` when
reading the file raises (the `except` path); otherwise it is the file's
text.  Returns the first token filtered to hex characters when exactly 64
hex characters remain, else `none`. -/
def read_expected_sha256 (content : Option (List Char)) : Option (List Char) :=
  match content with
  | none => none
  | some raw =>
    if stripChars raw = [] then none
    else
      let cleaned := (firstToken raw).filter isHexChar
      if cleaned.length = 64 then some cleaned else none

/-- Python `str.lower()` on a character list (used for the
case-insensitive digest comparison at lines 110 and 159). -/
def lowerL (l : List Char) : List Char := l.map Char.toLower

/-- The read loop of `sha256_file` (lines 19-23): repeatedly take a chunk
of at most `bufsize` bytes and feed it to the hash state.  `hashlib`'s
incremental interface is modelled by accumulating the streamed bytes; the
final digest is the digest function applied to the accumulated bytes. -/
def hashLoop (bufsize : Nat) (rest acc : List Nat) : List Nat :=
  if h : rest.take bufsize = [] then acc
  else hashLoop bufsize (rest.drop bufsize) (acc ++ rest.take bufsize)
termination_by rest.length
decreasing_by
  have h1 : rest ≠ [] := by
    intro hr
    exact h (by simp [hr])
  have h2 : 0 < bufsize := by
    rcases Nat.eq_zero_or_pos bufsize with h0 | h0
    · exact absurd (by simp [h0]) h
    · exact h0
  simp only [List.length_drop]
  exact Nat.sub_lt (List.length_pos.mpr h1) h2

/-- `sha256_file` (lines 16-24): stream the file in `bufsize`-byte chunks
through the hash.  `hexdigest` is the digest finalizer of the hash
library (a pure function of the bytes fed in). -/
def sha256_file (hexdigest : List Nat → List Char) (content : List Nat)
    (bufsize : Nat) : List Char :=
  hexdigest (hashLoop bufsize content [])

/-! ### Paths

An absolute filesystem path is a list of components (the leading root is
implicit); a component is a `List Char`.  `Path.resolve()` is modelled by
its lexical normalization (dropping empty and `.` components and letting
`..` remove the preceding component, with the parent of the root being the
root); symbolic links are outside the model. -/

/-- Split a character list on a separator (how a member-name string
decomposes into path components). -/
def splitOnChar (sep : Char) : List Char → List (List Char)
  | [] => [[]]
  | c :: rest =>
    match splitOnChar sep rest with
    | [] => [[]]
    | h :: t => if c = sep then [] :: h :: t else (c :: h) :: t

/-- One step of lexical path normalization. -/
def resolveStep (acc : List (List Char)) (c : List Char) : List (List Char) :=
  if c = [] ∨ c = ['.'] then acc
  else if c = ['.', '.'] then acc.dropLast
  else acc ++ [c]

/-- Lexical `Path.resolve()` on an absolute component list. -/
def resolvePath (p : List (List Char)) : List (List Char) :=
  p.foldl resolveStep []

/-- `dest_dir / member_name` (line 68): pathlib's join, which discards the
left operand when the right operand is absolute. -/
def joinPath (dest : List (List Char)) (name : List Char) : List (List Char) :=
  if name.head? = some '/' then splitOnChar '/' name
  else dest ++ splitOnChar '/' name

/-- The tail of `str(Path)` after the leading `/`: components joined by
`/`. -/
def renderFrom : List (List Char) → List Char
  | [] => []
  | c :: rest => '/' :: (c ++ renderFrom rest)

/-- `str(Path)` for an absolute path: `/` for the root, otherwise the
`/`-joined components with a leading `/`. -/
def renderAbs (comps : List (List Char)) : List Char :=
  match comps with
  | [] => ['/']
  | _ => renderFrom comps

/-- The member acceptance test of `extract_tar_xz` (line 69):
`str(target.resolve()).startswith(str(dest_dir.resolve()) + os.sep)`. -/
def memberOk (dest : List (List Char)) (name : List Char) : Bool :=
  List.isPrefixOf (renderAbs (resolvePath dest) ++ ['/'])
    (renderAbs (resolvePath (joinPath dest name)))

/-- The spec-side notion of a member escaping the destination: the
resolved target (destination joined with the member name) is not at or
below the resolved destination. -/
def outsideDest (dest : List (List Char)) (name : List Char) : Bool :=
  ! List.isPrefixOf (resolvePath dest) (resolvePath (joinPath dest name))

/-! ### Archives and extraction -/

/-- The parsed form of an archive file, as the `tarfile`/`lzma` libraries
expose it to the script: a valid `tar.xz` container with its member
names, a well-formed `.xz` stream that is not a tar container (the
`tarfile.ReadError` fallback path, with the decompressed bytes), or an
unreadable blob (both attempts raise). -/
inductive ArchiveContent where
  | tarxz (members : List (List Char))
  | rawxz (bytes : List Nat)
  | invalid
deriving DecidableEq

/-- A filesystem side effect performed by extraction. -/
inductive Effect where
  /-- `mkdir(parents=True, exist_ok=True)`: create the directory and every
  missing ancestor; never fails when they already exist. -/
  | mkdirP (path : List (List Char))
  /-- A tar member written by `extractall`. -/
  | writeMember (path : List (List Char))
  /-- A raw decompressed output file. -/
  | writeFile (path : List (List Char)) (bytes : List Nat)
deriving DecidableEq

/-- The member-checking loop of `extract_tar_xz` (lines 67-70): the first
member rejected by `memberOk`, if any. -/
def checkMembers (dest : List (List Char)) : List (List Char) → Option (List Char)
  | [] => none
  | m :: rest => if memberOk dest m then checkMembers dest rest else some m

/-- The output-name computation of the raw fallback (lines 76-80): strip a
trailing `.xz`, then a trailing `.tar`. -/
def rawOutName (name : List Char) : List Char :=
  let n1 := if List.isSuffixOf ".xz".data name then name.take (name.length - 3) else name
  if List.isSuffixOf ".tar".data n1 then n1.take (n1.length - 4) else n1

/-- `extract_tar_xz` (lines 59-89).  Returns the effect trace and either
the mode tag (`"tarxz"` or `"rawxz"`) or the raised error.  The
destination directory is created first (line 63); a container whose
member list contains a rejected member raises before `extractall` writes
anything. -/
def extract_tar_xz (archiveName : List Char) (c : ArchiveContent)
    (dest : List (List Char)) : List Effect × Except String String :=
  let base := [Effect.mkdirP dest]
  match c with
  | .tarxz members =>
    match checkMembers dest members with
    | some m =>
      (base, Except.error ("Blocked path traversal attempt: " ++ String.mk m))
    | none =>
      (base ++ members.map (fun m => Effect.writeMember (resolvePath (joinPath dest m))),
       Except.ok "tarxz")
  | .rawxz bytes =>
    (base ++ [Effect.writeFile (dest ++ [rawOutName archiveName]) bytes],
     Except.ok "rawxz")
  | .invalid => (base, Except.error "lzma error")

/-! ### Filesystem state for directory-creation effects -/

/-- The ancestors of a path created by `mkdir(parents=True)`, the path
itself included. -/
def ancestors (p : List (List Char)) : List (List (List Char)) :=
  (List.range (p.length + 1)).map (fun i => p.take i)

/-- The directory structure of the filesystem, as far as the script
observes it. -/
structure FS where
  dirs : List (List (List Char))

/-- Apply one effect to the filesystem's directory structure.  `mkdirP`
creates the directory and all ancestors regardless of the prior state
(`exist_ok=True` makes it total); file writes do not change `dirs`. -/
def runEffect (fs : FS) : Effect → FS
  | .mkdirP p => { dirs := fs.dirs ++ ancestors p }
  | .writeMember _ => fs
  | .writeFile _ _ => fs

/-- Apply a trace of effects in order. -/
def runEffects (fs : FS) (es : List Effect) : FS := es.foldl runEffect fs

/-! ### Orchestration -/

/-- The top-level archive as found on disk: its filename, its actual
SHA-256 digest (the value `sha256_file` returns for it), and its parsed
content. -/
structure TopArchive where
  name : List Char
  digest : List Char
  content : ArchiveContent
deriving DecidableEq

/-- A `checksums` directory: whether the path is a directory, and its
files (name, text content). -/
structure ChecksumDirM where
  isDir : Bool
  files : List (List Char × List Char)
deriving DecidableEq

/-- A nested `.tar.xz` archive inside a subdirectory: its filename, the
content of its companion `checksums/<name>.sha256` file (`none` when that
file does not exist), its actual SHA-256 digest, and its parsed
content. -/
structure NestedArchive where
  name : List Char
  shaFile : Option (List Char)
  digest : List Char
  content : ArchiveContent
deriving DecidableEq

/-- The checksum phase of `process_top_level` (lines 96-113): `true` means
fall through to extraction (no checksum directory, missing checksum file,
or invalid format all proceed unconditionally; a matching digest
proceeds); `false` means the mismatch early return at line 112. -/
def topVerify (arc : TopArchive) (cd : Option ChecksumDirM) : Bool :=
  match cd with
  | none => true
  | some d =>
    if d.isDir then
      match d.files.lookup (arc.name ++ ".sha256".data) with
      | none => true
      | some txt =>
        match read_expected_sha256 (some txt) with
        | none => true
        | some expected => lowerL arc.digest = lowerL expected
    else true

/-- `process_top_level` (lines 91-124): optional verification, then
extraction.  Returns the script's return value (1 on successful
extraction, 0 on mismatch or extraction error) together with the effect
trace of the extraction attempt (empty when the mismatch return skips
extraction). -/
def process_top_level (arc : TopArchive) (dest : List (List Char))
    (cd : Option ChecksumDirM) : Nat × List Effect :=
  if topVerify arc cd then
    match extract_tar_xz arc.name arc.content dest with
    | (effs, Except.ok _) => (1, effs)
    | (effs, Except.error _) => (0, effs)
  else (0, [])

/-- The loop body of `process_subdir` for one archive (lines 144-178).
Returns `(attempted, ok)`: whether extraction was attempted (the checksum
gate passed, or enforcement is off), and whether it succeeded. -/
def subdirStep (hasChecksums : Bool) (dest : List (List Char))
    (a : NestedArchive) : Bool × Bool :=
  if hasChecksums then
    match a.shaFile with
    | none => (false, false)
    | some txt =>
      match read_expected_sha256 (some txt) with
      | none => (false, false)
      | some expected =>
        if lowerL a.digest = lowerL expected then
          (true, (extract_tar_xz a.name a.content dest).2.isOk)
        else (false, false)
  else (true, (extract_tar_xz a.name a.content dest).2.isOk)

/-- `process_subdir` (lines 126-181): iterate over the sorted archives,
counting attempts and successful extractions.  Returns `(total, ok)` as
printed in the summary line; the script's return value is the `ok`
count. -/
def process_subdir (hasChecksums : Bool) (archives : List NestedArchive)
    (dest : List (List Char)) : Nat × Nat :=
  archives.foldl
    (fun acc a =>
      (acc.1 + 1, acc.2 + (if (subdirStep hasChecksums dest a).2 then 1 else 0)))
    (0, 0)

/-- The claim-side checksum gate for a nested archive, written from the
spec's words: the companion `.sha256` file exists, parses to a valid
64-hex digest, and that digest equals the archive's SHA-256 compared
case-insensitively. -/
def checksumGateP (a : NestedArchive) : Prop :=
  ∃ txt e, a.shaFile = some txt ∧ read_expected_sha256 (some txt) = some e ∧
    lowerL a.digest = lowerL e

/-- The filesystem environment a run observes: whether the source argument
is a directory, the `checksums` folder sitting next to the top-level
archive (if any), the top-level archive (if present), and the two known
subdirectories (`none` when absent; otherwise whether their `checksums`
folder exists, with their sorted archive list). -/
structure Env where
  srcIsDir : Bool
  srcChecksums : Option ChecksumDirM
  topArchive : Option TopArchive
  attackDir : Option (Bool × List NestedArchive)
  benignDir : Option (Bool × List NestedArchive)

/-- `process` (lines 183-214): extract the top-level archive (the
checksum directory argument is the literal `None` of line 193), abort
with 1 when it is missing or its processing does not return 1, then
process the two subdirectories, whose results are discarded, and return
0. -/
def process (env : Env) (dest : List (List Char)) : Nat :=
  match env.topArchive with
  | none => 1
  | some arc =>
    if (process_top_level arc dest none).1 = 1 then
      let _ :=
        match env.attackDir with
        | some (hc, as) => process_subdir hc as (dest ++ ["extracted_attack_data".data])
        | none => (0, 0)
      let _ :=
        match env.benignDir with
        | some (hc, bs) => process_subdir hc bs (dest ++ ["extracted_benign_data".data])
        | none => (0, 0)
      0
    else 1

/-- `main` (lines 216-231): exit 2 before any processing when the source
argument is not a directory, otherwise exit with `process`'s result.
Returns the exit code and whether `process` ran. -/
def main_run (env : Env) (dest : List (List Char)) : Nat × Bool :=
  if env.srcIsDir then (process env dest, true) else (2, false)

/-! ### Hashing: chunk invariance (C7) -/

/-- The read loop concatenates exactly the file's bytes when the chunk
size is positive. -/
theorem hashLoop_eq_of_pos (bufsize : Nat) (hb : 0 < bufsize) :
    ∀ (n : Nat) (rest acc : List Nat), rest.length ≤ n →
      hashLoop bufsize rest acc = acc ++ rest := by
  intro n
  induction n with
  | zero =>
    intro rest acc hlen
    have hr : rest = [] := List.eq_nil_of_length_eq_zero (Nat.le_zero.mp hlen)
    subst hr
    rw [hashLoop]
    simp
  | succ n ih =>
    intro rest acc hlen
    rw [hashLoop]
    split
    · next htake =>
      rcases List.take_eq_nil_iff.mp htake with h0 | h0
      · omega
      · simp [h0]
    · next htake =>
      have hr : rest ≠ [] := by
        intro h0
        exact htake (by simp [h0])
      rw [ih (rest.drop bufsize) (acc ++ rest.take bufsize) ?_]
      · rw [List.append_assoc, List.take_append_drop]
      · have hpos := List.length_pos.mpr hr
        simp only [List.length_drop]
        omega

/-- C7: for every file content and every positive chunk size,
`sha256_file` feeds the digest function exactly the whole content, so its
result equals the digest of the entire file and is invariant to the chunk
size used internally. -/
theorem c7_sha256_chunk_invariant (hexdigest : List Nat → List Char)
    (content : List Nat) (b1 b2 : Nat) (h1 : 0 < b1) (h2 : 0 < b2) :
    sha256_file hexdigest content b1 = hexdigest content ∧
    sha256_file hexdigest content b1 = sha256_file hexdigest content b2 := by
  have e1 : hashLoop b1 content [] = content := by
    simpa using hashLoop_eq_of_pos b1 h1 content.length content [] (le_refl _)
  have e2 : hashLoop b2 content [] = content := by
    simpa using hashLoop_eq_of_pos b2 h2 content.length content [] (le_refl _)
  unfold sha256_file
  rw [e1, e2]
  exact ⟨rfl, rfl⟩

/-- Witness for C7 at a concrete digest function, content and chunk
sizes. -/
theorem c7_sha256_chunk_invariant_witness :
    sha256_file (fun l => l.map (fun n => Char.ofNat n)) [65, 66] 1 =
      (fun l => l.map (fun n => Char.ofNat n)) [65, 66] ∧
    sha256_file (fun l => l.map (fun n => Char.ofNat n)) [65, 66] 1 =
      sha256_file (fun l => l.map (fun n => Char.ofNat n)) [65, 66] 2 :=
  c7_sha256_chunk_invariant (fun l => l.map (fun n => Char.ofNat n)) [65, 66] 1 2
    (by decide) (by decide)

/-! ### Checksum reader (C5) -/

/-- C5 (amended): `read_expected_sha256` is total (the exception path is
the `none` input); when the first token of the first line is itself a
64-character hex string the function returns exactly that token; and it
returns `none` precisely when fewer or more than 64 hex characters remain
after the token is filtered to hex characters. -/
theorem c5_read_expected_spec :
    read_expected_sha256 none = none ∧
    ∀ raw : List Char,
      (((firstToken raw).length = 64 ∧ (firstToken raw).all isHexChar = true) →
        read_expected_sha256 (some raw) = some (firstToken raw)) ∧
      (((firstToken raw).filter isHexChar).length ≠ 64 →
        read_expected_sha256 (some raw) = none) := by
  refine ⟨rfl, fun raw => ⟨?_, ?_⟩⟩
  · rintro ⟨hlen, hhex⟩
    have hne : stripChars raw ≠ [] := by
      intro h0
      have hft : firstToken raw = [] := by
        simp only [firstToken, h0]
        simp [stripChars]
      rw [hft] at hlen
      simp at hlen
    have hfilter : (firstToken raw).filter isHexChar = firstToken raw :=
      List.filter_eq_self.mpr (by simpa [List.all_eq_true] using hhex)
    unfold read_expected_sha256
    simp [hne, hfilter, hlen]
  · intro hne64
    unfold read_expected_sha256
    by_cases h0 : stripChars raw = []
    · simp [h0]
    · simp [h0, hne64]

/-- Witness for C5's amended statement: a 64-character hex token is
returned verbatim. -/
theorem c5_read_expected_spec_witness :
    read_expected_sha256 (some (List.replicate 64 'a')) =
      some (firstToken (List.replicate 64 'a')) :=
  (c5_read_expected_spec.2 (List.replicate 64 'a')).1 (by decide)

/-- C5 counterexample: the 65-character first token `z0…0` contains the
non-hex character `z`, yet the function returns a digest (the token with
`z` filtered out) instead of the claimed `none`, because non-hex
characters are removed before the length-64 test. -/
theorem c5_counterexample :
    ('z' ∈ firstToken ('z' :: List.replicate 64 '0') ∧ isHexChar 'z' = false) ∧
    read_expected_sha256 (some ('z' :: List.replicate 64 '0')) =
      some (List.replicate 64 '0') := by
  decide

/-! ### Path-traversal check (C1, C9) -/

theorem isPrefixOf_eq_true_iff {α : Type} [BEq α] [LawfulBEq α] (l₁ l₂ : List α) :
    List.isPrefixOf l₁ l₂ = true ↔ List.IsPrefix l₁ l₂ :=
  List.isPrefixOf_iff_prefix

theorem renderAbs_nil : renderAbs [] = ['/'] := rfl

theorem renderAbs_cons (c : List Char) (cs : List (List Char)) :
    renderAbs (c :: cs) = renderFrom (c :: cs) := rfl

/-- The separator never occurs inside a piece produced by splitting on
it. -/
theorem splitOnChar_not_mem (sep : Char) :
    ∀ l : List Char, ∀ p ∈ splitOnChar sep l, sep ∉ p := by
  intro l
  induction l with
  | nil =>
    intro p hp
    simp only [splitOnChar, List.mem_singleton] at hp
    simp [hp]
  | cons c rest ih =>
    intro p hp
    rw [splitOnChar] at hp
    rcases hsplit : splitOnChar sep rest with _ | ⟨h, t⟩
    · rw [hsplit] at hp
      simp at hp
      simp [hp]
    · rw [hsplit] at hp
      change p ∈ (if c = sep then [] :: h :: t else (c :: h) :: t) at hp
      by_cases hc : c = sep
      · rw [if_pos hc] at hp
        rcases List.mem_cons.mp hp with h1 | h1
        · simp [h1]
        · exact ih p (by rw [hsplit]; exact h1)
      · rw [if_neg hc] at hp
        rcases List.mem_cons.mp hp with h1 | h1
        · subst h1
          intro hmem
          rcases List.mem_cons.mp hmem with h2 | h2
          · exact hc h2.symm
          · exact ih h (by rw [hsplit]; exact List.mem_cons_self h t) h2
        · exact ih p (by rw [hsplit]; exact List.mem_cons_of_mem h h1)

/-- Lexical resolution only produces components that are nonempty and
separator-free, provided the input components are separator-free. -/
theorem resolve_foldl_valid :
    ∀ (p acc : List (List Char)),
      (∀ c ∈ acc, c ≠ [] ∧ ('/' : Char) ∉ c) →
      (∀ c ∈ p, ('/' : Char) ∉ c) →
      ∀ c ∈ p.foldl resolveStep acc, c ≠ [] ∧ ('/' : Char) ∉ c := by
  intro p
  induction p with
  | nil =>
    intro acc hacc _
    simpa using hacc
  | cons d p ih =>
    intro acc hacc hp c hc
    rw [List.foldl_cons] at hc
    refine ih (resolveStep acc d) ?_ (fun x hx => hp x (List.mem_cons_of_mem d hx)) c hc
    intro x hx
    by_cases h1 : d = [] ∨ d = ['.']
    · simp only [resolveStep, if_pos h1] at hx
      exact hacc x hx
    · by_cases h2 : d = ['.', '.']
      · simp only [resolveStep, if_neg h1, if_pos h2] at hx
        exact hacc x (List.dropLast_subset _ hx)
      · simp only [resolveStep, if_neg h1, if_neg h2] at hx
        rcases List.mem_append.mp hx with h3 | h3
        · exact hacc x h3
        · have hxd : x = d := by simpa using h3
          subst hxd
          exact ⟨fun h0 => h1 (Or.inl h0), hp x (List.mem_cons_self x p)⟩

/-- Unique decodability of the `/`-separated rendering: when the
components on both sides are separator-free, a rendered path extended by
a separator can only be a string prefix when the component lists agree up
to that point. -/
theorem encode_prefix_eq (a : List Char) :
    ∀ (b x y : List Char), ('/' : Char) ∉ a → ('/' : Char) ∉ b →
      List.IsPrefix (a ++ '/' :: x) (b ++ '/' :: y) → a = b ∧ List.IsPrefix x y := by
  induction a with
  | nil =>
    intro b x y _ hb h
    cases b with
    | nil =>
      refine ⟨rfl, ?_⟩
      rw [List.nil_append, List.nil_append, List.cons_prefix_cons] at h
      exact h.2
    | cons d b' =>
      exfalso
      rw [List.nil_append, List.cons_append, List.cons_prefix_cons] at h
      exact hb (by rw [h.1]; exact List.mem_cons_self d b')
  | cons c a' ih =>
    intro b x y ha hb h
    cases b with
    | nil =>
      exfalso
      rw [List.cons_append, List.nil_append, List.cons_prefix_cons] at h
      exact ha (by rw [← h.1]; exact List.mem_cons_self c a')
    | cons d b' =>
      rw [List.cons_append, List.cons_append, List.cons_prefix_cons] at h
      have ha' : ('/' : Char) ∉ a' := fun hm => ha (List.mem_cons_of_mem c hm)
      have hb' : ('/' : Char) ∉ b' := fun hm => hb (List.mem_cons_of_mem d hm)
      obtain ⟨heq, hxy⟩ := ih b' x y ha' hb' h.2
      exact ⟨by rw [h.1, heq], hxy⟩

/-- The rendering of any component list followed by a separator starts
with a separator. -/
theorem renderFrom_append_slash (A : List (List Char)) :
    ∃ Z : List Char, renderFrom A ++ ['/'] = '/' :: Z := by
  cases A with
  | nil => exact ⟨[], rfl⟩
  | cons a A' => exact ⟨a ++ renderFrom A' ++ ['/'], by rw [renderFrom]; simp⟩

/-- String-prefix on renderings (with a trailing separator appended to
the left side) implies component-list prefix, for separator-free
nonempty components. -/
theorem renderFrom_prefix_of_prefix (A : List (List Char)) :
    ∀ B : List (List Char),
      (∀ c ∈ A, c ≠ [] ∧ ('/' : Char) ∉ c) →
      (∀ c ∈ B, c ≠ [] ∧ ('/' : Char) ∉ c) →
      List.IsPrefix (renderFrom A ++ ['/']) (renderFrom B) →
      List.IsPrefix A B := by
  induction A with
  | nil =>
    intro B _ _ _
    exact ⟨B, rfl⟩
  | cons a A' ih =>
    intro B hA hB hpre
    cases B with
    | nil =>
      exfalso
      rw [renderFrom, renderFrom] at hpre
      rcases hpre with ⟨t, ht⟩
      simp at ht
    | cons b B' =>
      rw [renderFrom, renderFrom, List.cons_append, List.cons_prefix_cons] at hpre
      obtain ⟨-, hpre⟩ := hpre
      rw [List.append_assoc] at hpre
      obtain ⟨Z, hZ⟩ := renderFrom_append_slash A'
      rw [hZ] at hpre
      have ha : ('/' : Char) ∉ a := (hA a (List.mem_cons_self a A')).2
      have hb : ('/' : Char) ∉ b := (hB b (List.mem_cons_self b B')).2
      cases B' with
      | nil =>
        exfalso
        have h0 : renderFrom ([] : List (List Char)) = [] := rfl
        rw [h0, List.append_nil] at hpre
        have hsub := hpre.subset
        exact hb (hsub (List.mem_append.mpr (Or.inr (List.mem_cons_self '/' Z))))
      | cons b2 B'' =>
        rw [renderFrom] at hpre
        obtain ⟨heq, hZpre⟩ :=
          encode_prefix_eq a b Z (b2 ++ renderFrom B'') ha hb hpre
        have hA' : ∀ c ∈ A', c ≠ [] ∧ ('/' : Char) ∉ c :=
          fun c hc => hA c (List.mem_cons_of_mem a hc)
        have hB' : ∀ c ∈ b2 :: B'', c ≠ [] ∧ ('/' : Char) ∉ c :=
          fun c hc => hB c (List.mem_cons_of_mem b hc)
        have hrec : List.IsPrefix (renderFrom A' ++ ['/']) (renderFrom (b2 :: B'')) := by
          rw [hZ, renderFrom]
          exact List.cons_prefix_cons.mpr ⟨rfl, hZpre⟩
        have := ih (b2 :: B'') hA' hB' hrec
        exact List.cons_prefix_cons.mpr ⟨heq, this⟩

/-- Soundness of the `startswith` check of line 69: a member it accepts
has its resolved target at or below the resolved destination. -/
theorem memberOk_implies_within (dest : List (List Char)) (name : List Char)
    (hdest : ∀ c ∈ dest, ('/' : Char) ∉ c) :
    memberOk dest name = true →
    List.IsPrefix (resolvePath dest) (resolvePath (joinPath dest name)) := by
  intro h
  unfold memberOk at h
  rw [isPrefixOf_eq_true_iff] at h
  have hD : ∀ c ∈ resolvePath dest, c ≠ [] ∧ ('/' : Char) ∉ c :=
    resolve_foldl_valid dest [] (by simp) hdest
  have hT : ∀ c ∈ resolvePath (joinPath dest name), c ≠ [] ∧ ('/' : Char) ∉ c := by
    apply resolve_foldl_valid _ [] (by simp)
    intro c hc
    unfold joinPath at hc
    split at hc
    · exact splitOnChar_not_mem '/' name c hc
    · rcases List.mem_append.mp hc with h1 | h1
      · exact hdest c h1
      · exact splitOnChar_not_mem '/' name c h1
  rcases hD0 : resolvePath dest with _ | ⟨d, D'⟩
  · exact ⟨resolvePath (joinPath dest name), rfl⟩
  · rw [hD0] at h hD
    rcases hT0 : resolvePath (joinPath dest name) with _ | ⟨t, T'⟩
    · exfalso
      rw [hT0] at h
      rw [renderAbs_cons, renderAbs_nil, renderFrom] at h
      have hlen := h.length_le
      simp only [List.cons_append, List.length_cons, List.length_append,
        List.length_singleton] at hlen
      omega
    · rw [hT0] at h hT
      rw [renderAbs_cons, renderAbs_cons] at h
      exact renderFrom_prefix_of_prefix (d :: D') (t :: T') hD hT h

/-- The member-checking loop reports an offender whenever one exists. -/
theorem checkMembers_some (dest : List (List Char)) :
    ∀ members : List (List Char),
      (∃ m ∈ members, memberOk dest m = false) →
      ∃ m, checkMembers dest members = some m := by
  intro members
  induction members with
  | nil =>
    rintro ⟨m, hm, -⟩
    exact absurd hm (List.not_mem_nil m)
  | cons m ms ih =>
    rintro ⟨m', hm', hfalse⟩
    by_cases h : memberOk dest m
    · rcases List.mem_cons.mp hm' with h1 | h1
      · subst h1
        rw [h] at hfalse
        cases hfalse
      · obtain ⟨w, hw⟩ := ih ⟨m', h1, hfalse⟩
        exact ⟨w, by simp [checkMembers, h, hw]⟩
    · exact ⟨m, by simp [checkMembers, h]⟩

/-- C1: if any member of a tar container resolves outside the destination
directory, `extract_tar_xz` raises a path-traversal error before writing
any file: the effect trace of the call is exactly the destination-directory
creation, with zero file writes.  The destination's components are
separator-free, as pathlib path parts always are. -/
theorem c1_traversal_aborts_container (arcName : List Char)
    (dest : List (List Char)) (members : List (List Char))
    (hdest : ∀ c ∈ dest, ('/' : Char) ∉ c)
    (hout : ∃ m ∈ members, outsideDest dest m = true) :
    ∃ msg, extract_tar_xz arcName (.tarxz members) dest =
      ([Effect.mkdirP dest], Except.error msg) := by
  obtain ⟨m, hm, houtm⟩ := hout
  have hfalse : memberOk dest m = false := by
    cases hmo : memberOk dest m
    · rfl
    · exfalso
      have hwithin := memberOk_implies_within dest m hdest hmo
      have htrue :=
        (isPrefixOf_eq_true_iff (resolvePath dest)
          (resolvePath (joinPath dest m))).mpr hwithin
      unfold outsideDest at houtm
      rw [htrue] at houtm
      simp at houtm
  obtain ⟨w, hw⟩ := checkMembers_some dest members ⟨m, hm, hfalse⟩
  exact ⟨"Blocked path traversal attempt: " ++ String.mk w, by
    simp [extract_tar_xz, hw]⟩

/-- Witness for C1: a container holding the member `..` escapes any
single-component destination and is rejected with no file written. -/
theorem c1_traversal_aborts_container_witness :
    ∃ msg, extract_tar_xz [] (.tarxz [['.', '.']]) [['d']] =
      ([Effect.mkdirP [['d']]], Except.error msg) :=
  c1_traversal_aborts_container [] [['d']] [['.', '.']]
    (by decide) ⟨['.', '.'], by decide, by decide⟩

/-- C9: the check accepts a member only when its resolved target extends
the resolved destination by at least one component, so any member
resolving to the destination itself (such as `.`) is rejected and the
container extraction fails with a traversal error. -/
theorem c9_dest_itself_rejected (arcName : List Char) (dest : List (List Char))
    (name : List Char) (members : List (List Char))
    (heq : resolvePath (joinPath dest name) = resolvePath dest) :
    memberOk dest name = false ∧
    (name ∈ members →
      ∃ msg, extract_tar_xz arcName (.tarxz members) dest =
        ([Effect.mkdirP dest], Except.error msg)) ∧
    resolvePath (joinPath dest ['.']) = resolvePath dest := by
  have h1 : memberOk dest name = false := by
    unfold memberOk
    rw [heq]
    cases hmo : List.isPrefixOf (renderAbs (resolvePath dest) ++ ['/'])
        (renderAbs (resolvePath dest))
    · rfl
    · exfalso
      have hp := (isPrefixOf_eq_true_iff _ _).mp hmo
      have hlen := hp.length_le
      rw [List.length_append] at hlen
      simp at hlen
  refine ⟨h1, ?_, ?_⟩
  · intro hmem
    obtain ⟨w, hw⟩ := checkMembers_some dest members ⟨name, hmem, h1⟩
    exact ⟨"Blocked path traversal attempt: " ++ String.mk w, by
      simp [extract_tar_xz, hw]⟩
  · rw [joinPath, if_neg (by decide : ¬ (['.'] : List Char).head? = some '/')]
    show resolvePath (dest ++ [['.']]) = resolvePath dest
    unfold resolvePath
    rw [List.foldl_append]
    show resolveStep (List.foldl resolveStep [] dest) ['.'] = _
    unfold resolveStep
    rw [if_pos (Or.inr rfl)]

/-- Witness for C9: the member `.` of a container is rejected at a
concrete destination. -/
theorem c9_dest_itself_rejected_witness :
    memberOk [['d']] ['.'] = false ∧
    (['.'] ∈ ([['.']] : List (List Char)) →
      ∃ msg, extract_tar_xz [] (.tarxz [['.']]) [['d']] =
        ([Effect.mkdirP [['d']]], Except.error msg)) ∧
    resolvePath (joinPath [['d']] ['.']) = resolvePath [['d']] :=
  c9_dest_itself_rejected [] [['d']] ['.'] [['.']] (by decide)

/-! ### Raw-stream fallback naming (C4) -/

/-- C4 (amended): the raw `.xz` fallback on an archive named
`payload.tar.xz` writes exactly one file into the destination, named
`payload` (the `.xz` suffix is stripped, then the `.tar` suffix), holding
the decompressed bytes. -/
theorem c4_raw_fallback_output (dest : List (List Char)) (bytes : List Nat) :
    extract_tar_xz "payload.tar.xz".data (.rawxz bytes) dest =
      ([Effect.mkdirP dest, Effect.writeFile (dest ++ ["payload".data]) bytes],
        Except.ok "rawxz") := by
  rfl

/-! ### Nested-archive checksum gating (C2) -/

/-- The attempt flag of the loop body equals the spec's checksum gate:
with enforcement on, extraction is attempted exactly when the companion
checksum file exists, parses, and matches case-insensitively; with
enforcement off, always. -/
theorem subdirStep_fst (hc : Bool) (dest : List (List Char)) (a : NestedArchive) :
    (subdirStep hc dest a).1 = true ↔ (hc = true → checksumGateP a) := by
  cases hc with
  | false =>
    simp [subdirStep]
  | true =>
    rcases hsha : a.shaFile with _ | txt
    · simp only [subdirStep, hsha]
      simp
      rintro ⟨txt, e, htxt, -, -⟩
      rw [hsha] at htxt
      cases htxt
    · rcases hread : read_expected_sha256 (some txt) with _ | e
      · simp only [subdirStep, hsha, hread]
        simp
        rintro ⟨txt', e', htxt, hread', -⟩
        rw [hsha] at htxt
        injection htxt with htxt
        subst htxt
        rw [hread] at hread'
        cases hread'
      · by_cases hdig : lowerL a.digest = lowerL e
        · simp only [subdirStep, hsha, hread, hdig]
          simp
          exact ⟨txt, e, hsha, hread, hdig⟩
        · simp only [subdirStep, hsha, hread]
          simp [hdig]
          rintro ⟨txt', e', htxt, hread', hdig'⟩
          rw [hsha] at htxt
          injection htxt with htxt
          subst htxt
          rw [hread] at hread'
          injection hread' with hread'
          subst hread'
          exact hdig hdig'

/-- An archive counts as extracted exactly when its extraction was
attempted and `extract_tar_xz` succeeded on it. -/
theorem subdirStep_snd (hc : Bool) (dest : List (List Char)) (a : NestedArchive) :
    (subdirStep hc dest a).2 = ((subdirStep hc dest a).1 &&
      (extract_tar_xz a.name a.content dest).2.isOk) := by
  cases hc with
  | false =>
    simp [subdirStep]
  | true =>
    rcases hsha : a.shaFile with _ | txt
    · simp [subdirStep, hsha]
    · rcases hread : read_expected_sha256 (some txt) with _ | e
      · simp [subdirStep, hsha, hread]
      · by_cases hdig : lowerL a.digest = lowerL e
        · simp [subdirStep, hsha, hread, hdig]
        · simp [subdirStep, hsha, hread, hdig]

/-- Closed form of the per-subdirectory counting loop: the totals are a
sum of independent per-archive contributions. -/
theorem process_subdir_foldl (hc : Bool) (dest : List (List Char)) :
    ∀ (archives : List NestedArchive) (t k : Nat),
      archives.foldl
        (fun acc a =>
          (acc.1 + 1, acc.2 + (if (subdirStep hc dest a).2 then 1 else 0)))
        (t, k) =
      (t + archives.length,
        k + archives.countP (fun a => (subdirStep hc dest a).2)) := by
  intro archives
  induction archives with
  | nil =>
    intro t k
    simp
  | cons a as ih =>
    intro t k
    rw [List.foldl_cons, ih]
    apply Prod.ext
    · simp only [List.length_cons]
      omega
    · simp only [List.countP_cons]
      by_cases h : (subdirStep hc dest a).2 = true
      · simp only [h, if_true]
        omega
      · simp only [h, if_false]
        rw [Bool.not_eq_true] at h
        simp [h]

/-- C2: with a checksums folder present, each enumerated archive's
extraction is attempted exactly when its companion `.sha256` file exists,
parses to a digest, and matches the archive's SHA-256 case-insensitively
(a missing or invalid file or a mismatch yields no attempt); without the
folder every archive is attempted; an archive counts as extracted iff its
own attempt succeeded; and the subdirectory totals are the length and a
per-archive count, so one archive's failure never affects the others. -/
theorem c2_subdir_checksum_gating (hc : Bool) (archives : List NestedArchive)
    (dest : List (List Char)) :
    (∀ a : NestedArchive,
      ((subdirStep hc dest a).1 = true ↔ (hc = true → checksumGateP a)) ∧
      (subdirStep hc dest a).2 = ((subdirStep hc dest a).1 &&
        (extract_tar_xz a.name a.content dest).2.isOk)) ∧
    process_subdir hc archives dest =
      (archives.length, archives.countP (fun a => (subdirStep hc dest a).2)) := by
  refine ⟨fun a => ⟨subdirStep_fst hc dest a, subdirStep_snd hc dest a⟩, ?_⟩
  unfold process_subdir
  have h := process_subdir_foldl hc dest archives 0 0
  simpa using h

/-- Witness for C2 at a concrete subdirectory: a single archive with a
valid matching checksum is attempted, and the summary counts it as
extracted. -/
theorem c2_subdir_checksum_gating_witness :
    ((subdirStep true [['d']]
          { name := ['a'], shaFile := some (List.replicate 64 'a'),
            digest := List.replicate 64 'a',
            content := ArchiveContent.tarxz [] }).1 = true ↔
      (true = true → checksumGateP
          { name := ['a'], shaFile := some (List.replicate 64 'a'),
            digest := List.replicate 64 'a',
            content := ArchiveContent.tarxz [] })) ∧
    process_subdir true
        [{ name := ['a'], shaFile := some (List.replicate 64 'a'),
           digest := List.replicate 64 'a',
           content := ArchiveContent.tarxz [] }]
        [['d']]
      = (1, 1) :=
  ⟨((c2_subdir_checksum_gating true
      [{ name := ['a'], shaFile := some (List.replicate 64 'a'),
         digest := List.replicate 64 'a',
         content := ArchiveContent.tarxz [] }]
      [['d']]).1
      { name := ['a'], shaFile := some (List.replicate 64 'a'),
        digest := List.replicate 64 'a',
        content := ArchiveContent.tarxz [] }).1,
   by
    rw [(c2_subdir_checksum_gating true
      [{ name := ['a'], shaFile := some (List.replicate 64 'a'),
         digest := List.replicate 64 'a',
         content := ArchiveContent.tarxz [] }]
      [['d']]).2]
    decide⟩

/-! ### Top-level processing (C6, C8, C3) -/

/-- With no checksum directory, `process_top_level` reduces to the bare
extraction attempt: return 1 on success and 0 on failure, with the
extraction's effect trace. -/
theorem process_top_level_none (arc : TopArchive) (dest : List (List Char)) :
    process_top_level arc dest none =
      (if (extract_tar_xz arc.name arc.content dest).2.isOk then 1 else 0,
        (extract_tar_xz arc.name arc.content dest).1) := by
  unfold process_top_level
  rw [if_pos (show topVerify arc none = true from rfl)]
  rcases h : extract_tar_xz arc.name arc.content dest with ⟨effs, r⟩
  cases r with
  | ok v => simp [Except.isOk, Except.toBool]
  | error e => simp [Except.isOk, Except.toBool]

/-- Every `extract_tar_xz` call's first effect is the destination
directory creation. -/
theorem extract_effects_head (archiveName : List Char) (c : ArchiveContent)
    (dest : List (List Char)) :
    (extract_tar_xz archiveName c dest).1.head? = some (Effect.mkdirP dest) := by
  cases c with
  | tarxz members =>
    rcases h : checkMembers dest members with _ | m <;>
      simp [extract_tar_xz, h]
  | rawxz bytes => rfl
  | invalid => rfl

/-- C6: a top-level checksum directory whose `<name>.sha256` entry parses
to a digest different from the archive's SHA-256 makes
`process_top_level` return 0 with no extraction effects; a missing or
unparsable entry makes it behave exactly as with no checksum directory
(warn and extract unconditionally); and whenever the top-level step does
not return 1, `process` aborts the run with outcome 1. -/
theorem c6_top_level_checksum (arc : TopArchive) (dest : List (List Char))
    (d : ChecksumDirM) (txt e : List Char) :
    (d.isDir = true →
      d.files.lookup (arc.name ++ ".sha256".data) = some txt →
      read_expected_sha256 (some txt) = some e →
      lowerL arc.digest ≠ lowerL e →
      process_top_level arc dest (some d) = (0, [])) ∧
    (d.isDir = true →
      d.files.lookup (arc.name ++ ".sha256".data) = none →
      process_top_level arc dest (some d) = process_top_level arc dest none) ∧
    (d.isDir = true →
      d.files.lookup (arc.name ++ ".sha256".data) = some txt →
      read_expected_sha256 (some txt) = none →
      process_top_level arc dest (some d) = process_top_level arc dest none) ∧
    (∀ env : Env, env.topArchive = some arc →
      (process_top_level arc dest none).1 ≠ 1 → process env dest = 1) := by
  refine ⟨?_, ?_, ?_, ?_⟩
  · intro hdir hlook hread hneq
    have hv : topVerify arc (some d) = false := by
      simp [topVerify, hdir, hlook, hread, hneq]
    unfold process_top_level
    rw [hv]
    simp
  · intro hdir hlook
    have hv : topVerify arc (some d) = true := by
      simp [topVerify, hdir, hlook]
    unfold process_top_level
    rw [hv]
    rfl
  · intro hdir hlook hread
    have hv : topVerify arc (some d) = true := by
      simp [topVerify, hdir, hlook, hread]
    unfold process_top_level
    rw [hv]
    rfl
  · intro env htop hne
    obtain ⟨sid, sc, top, ad, bd⟩ := env
    simp only [Env.topArchive] at htop
    subst htop
    simp only [process]
    rw [if_neg hne]

/-- Witness for C6 at concrete inputs: a mismatching digest skips
extraction and returns 0, and a failing top-level step makes the run
return 1. -/
theorem c6_top_level_checksum_witness :
    process_top_level
        { name := ['a'], digest := List.replicate 64 'b',
          content := ArchiveContent.tarxz [] }
        [['d']]
        (some { isDir := true,
                files := [(['a'] ++ ".sha256".data, List.replicate 64 'a')] })
      = (0, []) ∧
    process
        { srcIsDir := true, srcChecksums := none,
          topArchive :=
            some { name := ['a'], digest := [], content := ArchiveContent.invalid },
          attackDir := none, benignDir := none }
        [['d']]
      = 1 :=
  ⟨(c6_top_level_checksum
      { name := ['a'], digest := List.replicate 64 'b',
        content := ArchiveContent.tarxz [] }
      [['d']]
      { isDir := true,
        files := [(['a'] ++ ".sha256".data, List.replicate 64 'a')] }
      (List.replicate 64 'a') (List.replicate 64 'a')).1
      rfl (by decide) (by decide) (by decide),
   (c6_top_level_checksum
      { name := ['a'], digest := [], content := ArchiveContent.invalid }
      [['d']]
      { isDir := true, files := [] } [] []).2.2.2
      { srcIsDir := true, srcChecksums := none,
        topArchive :=
          some { name := ['a'], digest := [], content := ArchiveContent.invalid },
        attackDir := none, benignDir := none }
      rfl (by decide)⟩

/-- C8: `process` passes the literal `None` as the top-level checksum
directory, so the run ignores any on-disk checksums folder, its outcome
never depends on the top-level archive's digest, the extraction of a
present top-level archive is always attempted (the top-level effect trace
starts with the destination creation), and the exit outcome is decided by
extraction success alone — the checksum-mismatch abort is unreachable. -/
theorem c8_top_level_unverified (env : Env) (dest : List (List Char))
    (arc : TopArchive) (htop : env.topArchive = some arc) :
    (∀ cd, process { env with srcChecksums := cd } dest = process env dest) ∧
    (∀ dg, process { env with topArchive := some { arc with digest := dg } } dest
        = process env dest) ∧
    (process_top_level arc dest none).2.head? = some (Effect.mkdirP dest) ∧
    process env dest =
      (if (extract_tar_xz arc.name arc.content dest).2.isOk then 0 else 1) := by
  obtain ⟨sid, sc, top, ad, bd⟩ := env
  simp only [Env.topArchive] at htop
  subst htop
  refine ⟨fun cd => rfl, fun dg => rfl, ?_, ?_⟩
  · rw [process_top_level_none]
    exact extract_effects_head arc.name arc.content dest
  · show (if (process_top_level arc dest none).1 = 1 then 0 else 1) = _
    rw [process_top_level_none]
    cases hok : (extract_tar_xz arc.name arc.content dest).2.isOk <;> simp [hok]

/-- Witness for C8: with a raw-stream top-level archive present, the
on-disk checksums folder is irrelevant, the extraction is attempted, and
the exit outcome equals the extraction outcome. -/
theorem c8_top_level_unverified_witness :
    process
        { srcIsDir := true,
          srcChecksums := some { isDir := true, files := [] },
          topArchive :=
            some { name := ['a'], digest := [], content := ArchiveContent.rawxz [] },
          attackDir := none, benignDir := none }
        [['d']]
      = process
        { srcIsDir := true, srcChecksums := none,
          topArchive :=
            some { name := ['a'], digest := [], content := ArchiveContent.rawxz [] },
          attackDir := none, benignDir := none }
        [['d']] ∧
    (process_top_level
        { name := ['a'], digest := [], content := ArchiveContent.rawxz [] }
        [['d']] none).2.head? = some (Effect.mkdirP [['d']]) ∧
    process
        { srcIsDir := true, srcChecksums := none,
          topArchive :=
            some { name := ['a'], digest := [], content := ArchiveContent.rawxz [] },
          attackDir := none, benignDir := none }
        [['d']]
      = (if (extract_tar_xz ['a'] (ArchiveContent.rawxz []) [['d']]).2.isOk
          then 0 else 1) :=
  ⟨(c8_top_level_unverified
      { srcIsDir := true, srcChecksums := none,
        topArchive :=
          some { name := ['a'], digest := [], content := ArchiveContent.rawxz [] },
        attackDir := none, benignDir := none }
      [['d']]
      { name := ['a'], digest := [], content := ArchiveContent.rawxz [] }
      rfl).1 (some { isDir := true, files := [] }),
   (c8_top_level_unverified
      { srcIsDir := true, srcChecksums := none,
        topArchive :=
          some { name := ['a'], digest := [], content := ArchiveContent.rawxz [] },
        attackDir := none, benignDir := none }
      [['d']]
      { name := ['a'], digest := [], content := ArchiveContent.rawxz [] }
      rfl).2.2.1,
   (c8_top_level_unverified
      { srcIsDir := true, srcChecksums := none,
        topArchive :=
          some { name := ['a'], digest := [], content := ArchiveContent.rawxz [] },
        attackDir := none, benignDir := none }
      [['d']]
      { name := ['a'], digest := [], content := ArchiveContent.rawxz [] }
      rfl).2.2.2⟩

/-- C3: the exit status is 2 with no processing when the source argument
is not a directory; otherwise it is 1 exactly when the top-level archive
is missing or its extraction fails (with no checksum directory configured,
verification never fails) and 0 otherwise; and the nested subdirectory
outcomes never change `process`'s result. -/
theorem c3_exit_codes (env : Env) (dest : List (List Char)) :
    (env.srcIsDir = false → main_run env dest = (2, false)) ∧
    (env.srcIsDir = true →
      main_run env dest =
        ((match env.topArchive with
          | none => 1
          | some arc =>
            if (extract_tar_xz arc.name arc.content dest).2.isOk then 0 else 1),
          true)) ∧
    (∀ ad bd, process { env with attackDir := ad, benignDir := bd } dest
        = process env dest) := by
  obtain ⟨sid, sc, top, ad0, bd0⟩ := env
  refine ⟨?_, ?_, ?_⟩
  · intro h
    simp only [Env.srcIsDir] at h
    subst h
    rfl
  · intro h
    simp only [Env.srcIsDir] at h
    subst h
    show (process ⟨true, sc, top, ad0, bd0⟩ dest, true) = _
    cases top with
    | none => rfl
    | some arc =>
      show (if (process_top_level arc dest none).1 = 1 then _ else 1, true) = _
      rw [process_top_level_none]
      cases hok : (extract_tar_xz arc.name arc.content dest).2.isOk <;> simp [hok]
  · intro ad bd
    cases top with
    | none => rfl
    | some arc => rfl

/-- Witness for C3 at concrete environments: a bad source directory exits
2 without processing, and a missing top-level archive exits 1. -/
theorem c3_exit_codes_witness :
    main_run
        { srcIsDir := false, srcChecksums := none, topArchive := none,
          attackDir := none, benignDir := none } [['d']]
      = (2, false) ∧
    main_run
        { srcIsDir := true, srcChecksums := none, topArchive := none,
          attackDir := none, benignDir := none } [['d']]
      = (1, true) :=
  ⟨(c3_exit_codes
      { srcIsDir := false, srcChecksums := none, topArchive := none,
        attackDir := none, benignDir := none } [['d']]).1 rfl,
   (c3_exit_codes
      { srcIsDir := true, srcChecksums := none, topArchive := none,
        attackDir := none, benignDir := none } [['d']]).2.1 rfl⟩

/-! ### Destination-directory creation (C10) -/

/-- Directories already present are preserved by any effect trace. -/
theorem runEffects_dirs_mono (es : List Effect) :
    ∀ fs : FS, ∀ p ∈ fs.dirs, p ∈ (runEffects fs es).dirs := by
  induction es with
  | nil =>
    intro fs p hp
    exact hp
  | cons e es ih =>
    intro fs p hp
    apply ih
    cases e with
    | mkdirP q => exact List.mem_append.mpr (Or.inl hp)
    | writeMember _ => exact hp
    | writeFile _ _ => exact hp

/-- C10: `extract_tar_xz` always creates the destination directory first
(with all its ancestors, unconditionally on the prior state), so after
every call — including those returning an error — the destination and its
ancestors exist; the creation is not rolled back by a failure. -/
theorem c10_dest_created_first (archiveName : List Char) (c : ArchiveContent)
    (dest : List (List Char)) (fs : FS) :
    (extract_tar_xz archiveName c dest).1.head? = some (Effect.mkdirP dest) ∧
    ∀ i, i ≤ dest.length →
      dest.take i ∈ (runEffects fs (extract_tar_xz archiveName c dest).1).dirs := by
  constructor
  · exact extract_effects_head archiveName c dest
  · intro i hi
    have hshape : ∃ rest,
        (extract_tar_xz archiveName c dest).1 = Effect.mkdirP dest :: rest := by
      cases c with
      | tarxz members =>
        rcases h : checkMembers dest members with _ | m
        · exact ⟨members.map (fun m => Effect.writeMember (resolvePath (joinPath dest m))),
            by simp [extract_tar_xz, h]⟩
        · exact ⟨[], by simp [extract_tar_xz, h]⟩
      | rawxz bytes => exact ⟨_, rfl⟩
      | invalid => exact ⟨_, rfl⟩
    obtain ⟨rest, hrest⟩ := hshape
    rw [hrest]
    show dest.take i ∈ (runEffects (runEffect fs (Effect.mkdirP dest)) rest).dirs
    apply runEffects_dirs_mono
    show dest.take i ∈ fs.dirs ++ ancestors dest
    apply List.mem_append.mpr
    right
    apply List.mem_map.mpr
    exact ⟨i, List.mem_range.mpr (Nat.lt_succ_of_le hi), rfl⟩

/-- Witness for C10: even a call that fails with a decompression error
leaves the destination directory created. -/
theorem c10_dest_created_first_witness :
    (extract_tar_xz ['a'] ArchiveContent.invalid [['d']]).1.head? =
      some (Effect.mkdirP [['d']]) ∧
    [['d']].take 1 ∈
      (runEffects ⟨[]⟩ (extract_tar_xz ['a'] ArchiveContent.invalid [['d']]).1).dirs :=
  ⟨(c10_dest_created_first ['a'] ArchiveContent.invalid [['d']] ⟨[]⟩).1,
   (c10_dest_created_first ['a'] ArchiveContent.invalid [['d']] ⟨[]⟩).2 1 (by decide)⟩

/-- C4 counterexample: at a concrete destination and byte stream, the raw
fallback on `payload.tar.xz` produces the single output file `payload`,
and no file named `payload.tar` is written. -/
theorem c4_counterexample :
    (extract_tar_xz "payload.tar.xz".data (.rawxz [7]) [['d']]).1 =
      [Effect.mkdirP [['d']], Effect.writeFile [['d'], "payload".data] [7]] ∧
    (extract_tar_xz "payload.tar.xz".data (.rawxz [7]) [['d']]).2 =
      Except.ok "rawxz" ∧
    Effect.writeFile [['d'], "payload.tar".data] [7] ∉
      (extract_tar_xz "payload.tar.xz".data (.rawxz [7]) [['d']]).1 := by
  refine ⟨rfl, rfl, ?_⟩
  decide

end Unpack
